import Mathlib

/-!
Verification of the gitignore document engine in
`src/kraken/std/git/gitignore.py`: an executable shallow embedding of the
entry model, hashing, parser, sorter, renderer and refresh pipeline,
together with theorems settling the specification's claims.

Python strings are modelled as Lean `String`; lines of a text file are the
segments between `'\n'` characters, as produced by iterating an
`io.StringIO`.  Machine-level hashing (`hashlib.sha256`) is embedded as an
executable SHA-256 over `Nat` with explicit reduction mod `2 ^ 32`.
-/

/-! ### Python string primitives -/

/-- The ASCII whitespace characters stripped by Python's `str.strip()`. -/
def isPyWs (c : Char) : Bool :=
  c = ' ' || c = '\t' || c = '\n' || c = '\r' || c = '\x0b' || c = '\x0c'

/-- Python `str.lstrip()` (no argument: strip leading whitespace). -/
def pyLStrip (s : String) : String := String.mk (s.data.dropWhile isPyWs)

/-- Python `str.strip()` (strip whitespace from both ends). -/
def pyStrip (s : String) : String :=
  String.mk (((s.data.dropWhile isPyWs).reverse.dropWhile isPyWs).reverse)

/-- Python `str.lstrip("#")` (strip leading `'#'` characters). -/
def pyLStripHash (s : String) : String :=
  String.mk (s.data.dropWhile (fun c => c = '#'))

/-- Python `str.lower()` (ASCII case folding suffices for the embedded code). -/
def pyLower (s : String) : String := String.mk (s.data.map Char.toLower)

/-- Python `sep.join(pieces)`. -/
def pyJoin (sep : String) : List String → String
  | [] => ""
  | [x] => x
  | x :: y :: rest => x ++ sep ++ pyJoin sep (y :: rest)

/-- Python `str.replace("\r", "")`. -/
def pyStripCr (s : String) : String :=
  String.mk (s.data.filter (fun c => c ≠ '\r'))

/-- Split a character list at every `'\n'`; always returns at least one
(possibly empty) segment, and a trailing `'\n'` yields a trailing empty
segment. -/
def splitNl : List Char → List (List Char)
  | [] => [[]]
  | c :: rest => if c = '\n' then [] :: splitNl rest else (splitNl rest).modifyHead (fun l => c :: l)

/-- The `'\n'`-separated segments of a string. -/
def strLines (s : String) : List String := (splitNl s.data).map String.mk

/-- Character-list version of `pyJoin "\n"`, used to reason about joins. -/
def charJoin : List (List Char) → List Char
  | [] => []
  | [x] => x
  | x :: y :: rest => x ++ '\n' :: charJoin (y :: rest)

/-- The lines obtained by iterating a Python `io.StringIO` over `s` and
applying `line.rstrip("\n")` to each produced line: the `'\n'`-separated
segments, except that the empty segment after a final `'\n'` produces no
line. -/
def pyLines (s : String) : List String :=
  let parts := strLines s
  if parts.getLast? == some "" then parts.dropLast else parts

/-- Python `line.startswith("#")`. -/
def startsWithHash (s : String) : Bool := s.data.head? == some '#'

/-! ### Stable sorting, modelling Python's `list.sort(key=...)`

Python's `list.sort` is a stable sort by key; it is embedded as a stable
insertion sort ordered by `key a ≤ key b`, where `≤` on strings is, as in
Python, the lexicographic order on code points. -/

/-- Lexicographic `≤` on code points — the comparison Python uses between
strings. -/
def charListLe : List Char → List Char → Bool
  | [], _ => true
  | _ :: _, [] => false
  | c :: cs, d :: ds =>
    if c.toNat < d.toNat then true
    else if d.toNat < c.toNat then false
    else charListLe cs ds

theorem charListLe_total_aux : ∀ x y : List Char,
    charListLe x y = true ∨ charListLe y x = true := by
  intro x
  induction x with
  | nil => intro y; left; rfl
  | cons c cs ih =>
    intro y
    cases y with
    | nil => right; rfl
    | cons d ds =>
      simp only [charListLe]
      rcases Nat.lt_trichotomy c.toNat d.toNat with h | h | h
      · left
        rw [if_pos h]
      · rw [if_neg (by omega), if_neg (by omega), if_neg (by omega), if_neg (by omega)]
        exact ih ds
      · right
        rw [if_pos h]

theorem charListLe_trans_aux : ∀ x y z : List Char,
    charListLe x y = true → charListLe y z = true → charListLe x z = true := by
  intro x
  induction x with
  | nil => intro y z _ _; rfl
  | cons c cs ih =>
    intro y z h1 h2
    cases y with
    | nil => exact absurd h1 (by simp [charListLe])
    | cons d ds =>
      cases z with
      | nil => exact absurd h2 (by simp [charListLe])
      | cons e es =>
        simp only [charListLe] at h1 h2 ⊢
        rcases Nat.lt_trichotomy c.toNat d.toNat with hcd | hcd | hcd <;>
          rcases Nat.lt_trichotomy d.toNat e.toNat with hde | hde | hde
        all_goals
          first
          | (rw [if_pos (by omega)])
          | (rw [if_neg (by omega), if_neg (by omega)]
             rw [if_neg (by omega), if_neg (by omega)] at h1
             rw [if_neg (by omega), if_neg (by omega)] at h2
             exact ih ds es h1 h2)
          | (exfalso
             rw [if_neg (by omega)] at h1
             rw [if_pos (by omega)] at h1
             cases h1)
          | (exfalso
             rw [if_neg (by omega)] at h2
             rw [if_pos (by omega)] at h2
             cases h2)

/-- The ordering used by `list.sort(key=...)` with a string-valued key. -/
def keyLe {α : Type} (key : α → String) (a b : α) : Prop :=
  charListLe (key a).data (key b).data = true

instance {α : Type} (key : α → String) : DecidableRel (keyLe key) :=
  fun a b => inferInstanceAs (Decidable (_ = true))

instance {α : Type} (key : α → String) : IsTotal α (keyLe key) :=
  ⟨fun a b => charListLe_total_aux (key a).data (key b).data⟩

instance {α : Type} (key : α → String) : IsTrans α (keyLe key) :=
  ⟨fun _ _ _ h h' => charListLe_trans_aux _ _ _ h h'⟩

/-- Python `list.sort(key=...)`: a stable sort by the given key. -/
def pySort {α : Type} (key : α → String) (l : List α) : List α :=
  List.insertionSort (keyLe key) l

/-! ### SHA-256 (`hashlib.sha256(...).hexdigest()`)

An executable embedding over `Nat`, with 32-bit words represented as
naturals reduced mod `2 ^ 32`. -/

/-- Reduce to a 32-bit word. -/
def u32 (n : Nat) : Nat := n % 4294967296

/-- Right rotation of a 32-bit word. -/
def rotr32 (n x : Nat) : Nat := u32 ((x >>> n) ||| (x <<< (32 - n)))

/-- The SHA-256 round constants. -/
def sha256K : List Nat :=
  [1116352408, 1899447441, 3049323471, 3921009573, 961987163, 1508970993,
   2453635748, 2870763221, 3624381080, 310598401, 607225278, 1426881987,
   1925078388, 2162078206, 2614888103, 3248222580, 3835390401, 4022224774,
   264347078, 604807628, 770255983, 1249150122, 1555081692, 1996064986,
   2554220882, 2821834349, 2952996808, 3210313671, 3336571891, 3584528711,
   113926993, 338241895, 666307205, 773529912, 1294757372, 1396182291,
   1695183700, 1986661051, 2177026350, 2456956037, 2730485921, 2820302411,
   3259730800, 3345764771, 3516065817, 3600352804, 4094571909, 275423344,
   430227734, 506948616, 659060556, 883997877, 958139571, 1322822218,
   1537002063, 1747873779, 1955562222, 2024104815, 2227730452, 2361852424,
   2428436474, 2756734187, 3204031479, 3329325298]

/-- The SHA-256 initial hash value. -/
def sha256H0 : List Nat :=
  [1779033703, 3144134277, 1013904242, 2773480762,
   1359893119, 2600822924, 528734635, 1541459225]

/-- Big-endian byte representation of `n` in `k` bytes. -/
def beBytes (k n : Nat) : List Nat :=
  (List.range k).map (fun i => (n >>> (8 * (k - 1 - i))) % 256)

/-- SHA-256 message padding: append `0x80`, zeros, and the 64-bit
big-endian bit length, to a multiple of 64 bytes. -/
def sha256Pad (msg : List Nat) : List Nat :=
  msg ++ [128] ++ List.replicate ((119 - msg.length % 64) % 64) 0 ++ beBytes 8 (msg.length * 8)

/-- Split a byte list into 64-byte blocks. -/
def toBlocks (l : List Nat) : List (List Nat) :=
  if h : l = [] then [] else l.take 64 :: toBlocks (l.drop 64)
termination_by l.length
decreasing_by
  simp only [List.length_drop]
  have : 0 < l.length := List.length_pos.mpr h
  omega

/-- The 16 initial 32-bit message-schedule words of a 64-byte block. -/
def blockWords (block : List Nat) : List Nat :=
  (List.range 16).map (fun i =>
    (block.getD (4 * i) 0 <<< 24) + (block.getD (4 * i + 1) 0 <<< 16) +
      (block.getD (4 * i + 2) 0 <<< 8) + block.getD (4 * i + 3) 0)

/-- Extend the 16 message-schedule words to 64. -/
def sha256Extend (w : Array Nat) : Array Nat :=
  (List.range 48).foldl (fun w i =>
    let j := i + 16
    let w15 := w.getD (j - 15) 0
    let w2 := w.getD (j - 2) 0
    let s0 := rotr32 7 w15 ^^^ rotr32 18 w15 ^^^ (w15 >>> 3)
    let s1 := rotr32 17 w2 ^^^ rotr32 19 w2 ^^^ (w2 >>> 10)
    w.push (u32 (w.getD (j - 16) 0 + s0 + w.getD (j - 7) 0 + s1))) w

/-- The SHA-256 compression function on one block's message schedule. -/
def sha256Compress (h : List Nat) (w : Array Nat) : List Nat :=
  let st := (List.range 64).foldl (fun st i =>
    let (a, b, c, d, e, f, g, hh) := st
    let s1 := rotr32 6 e ^^^ rotr32 11 e ^^^ rotr32 25 e
    let ch := (e &&& f) ^^^ ((e ^^^ 4294967295) &&& g)
    let t1 := u32 (hh + s1 + ch + sha256K.getD i 0 + w.getD i 0)
    let s0 := rotr32 2 a ^^^ rotr32 13 a ^^^ rotr32 22 a
    let mj := (a &&& b) ^^^ (a &&& c) ^^^ (b &&& c)
    let t2 := u32 (s0 + mj)
    (u32 (t1 + t2), a, b, c, u32 (d + t1), e, f, g))
    (h.getD 0 0, h.getD 1 0, h.getD 2 0, h.getD 3 0, h.getD 4 0, h.getD 5 0, h.getD 6 0, h.getD 7 0)
  let (a, b, c, d, e, f, g, hh) := st
  [u32 (h.getD 0 0 + a), u32 (h.getD 1 0 + b), u32 (h.getD 2 0 + c), u32 (h.getD 3 0 + d),
   u32 (h.getD 4 0 + e), u32 (h.getD 5 0 + f), u32 (h.getD 6 0 + g), u32 (h.getD 7 0 + hh)]

/-- The eight 32-bit words of the SHA-256 digest of a byte sequence. -/
def sha256Words (msg : List Nat) : List Nat :=
  (toBlocks (sha256Pad msg)).foldl
    (fun h block => sha256Compress h (sha256Extend (List.toArray (blockWords block)))) sha256H0

/-- Lowercase hexadecimal digit. -/
def hexDigit (n : Nat) : Char := "0123456789abcdef".data.getD n '0'

/-- Eight hex digits of a 32-bit word, most significant first. -/
def wordHex (w : Nat) : List Char :=
  (List.range 8).map (fun i => hexDigit ((w >>> (4 * (7 - i))) % 16))

/-- Hex digest of SHA-256 over a byte sequence. -/
def sha256HexOfBytes (msg : List Nat) : String :=
  String.mk ((sha256Words msg).flatMap wordHex)

/-- UTF-8 bytes of a string, as naturals (`content.encode("utf-8")`). -/
def strBytes (s : String) : List Nat := s.toUTF8.data.toList.map UInt8.toNat

/-! ### The gitignore document engine, translated from
`src/kraken/std/git/gitignore.py` -/

/-- `hash_content`: `hashlib.sha256(content.encode("utf-8")).hexdigest()`. -/
def hash_content (content : String) : String := sha256HexOfBytes (strBytes content)

/-- `hash_parameters`: `hash_content(",".join([*tokens, *extra_paths]))`. -/
def hash_parameters (tokens extra_paths : List String) : String :=
  hash_content (pyJoin "," (tokens ++ extra_paths))

/-- `GITIGNORE_API_URL`. -/
def GITIGNORE_API_URL : String := "https://www.toptal.com/developers/gitignore/api/"

/-- The start-guard line produced by `GENERATED_GUARD_START_TEMPLATE.format(hash=h)`. -/
def GENERATED_GUARD_START_LINE (h : String) : String :=
  "### START-GENERATED-CONTENT [HASH: " ++ h ++ "]"

/-- The parameters-hash line produced by `PARAMETER_HASH_TEMPLATE.format(hash=h)`. -/
def PARAMETER_HASH_LINE (h : String) : String := "### [PARAMETERS_HASH: " ++ h ++ "]"

/-- `GENERATED_GUARD_END`. -/
def GENERATED_GUARD_END : String := "### END-GENERATED-CONTENT"

/-- `GENERATED_GUARD_DESCRIPTION` (a four-line banner with no trailing newline). -/
def GENERATED_GUARD_DESCRIPTION : String :=
  "# -------------------------------------------------------------------------------------------------\n" ++
  "# THIS SECTION WAS AUTOMATICALLY GENERATED BY KRAKEN; DO NOT MODIFY OR YOUR CHANGES WILL BE LOST.\n" ++
  "# If you need to define custom gitignore rules, add them below\n" ++
  "# -------------------------------------------------------------------------------------------------"

/-- The trailing separator banner appended by `refresh_generated_content`. -/
def GENERATED_SEPARATOR_LINE : String :=
  "# -------------------------------------------------------------------------------------------------"

/-- Matching `re.match(r"^PRE(.*)\]$", line)` for a fixed literal `pre` and
a newline-free `line`: `line` must start with `pre` and end with `']'`
strictly after the end of `pre`; the greedy group captures everything in
between. -/
def matchBracketLine (pre : String) (line : String) : Option String :=
  let l := line.data
  if pre.data.isPrefixOf l ∧ pre.data.length < l.length ∧ l.getLast? = some ']' then
    some (String.mk ((l.drop pre.data.length).dropLast))
  else none

/-- `re.match(GENERATED_GUARD_START_REGEX, line)`, returning the captured hash. -/
def startGuardMatch (line : String) : Option String :=
  matchBracketLine "### START-GENERATED-CONTENT [HASH: " line

/-- `re.match(PARAMETER_HASH_REGEX, line)`, returning the captured hash. -/
def paramHashMatch (line : String) : Option String :=
  matchBracketLine "### [PARAMETERS_HASH: " line

/-- `GitignoreEntryType`. -/
inductive GitignoreEntryType
  | comment
  | blank
  | path
deriving DecidableEq

/-- `GitignoreEntry`. -/
structure GitignoreEntry where
  type : GitignoreEntryType
  value : String
deriving DecidableEq

/-- `GitignoreEntry.is_comment`. -/
def GitignoreEntry.is_comment (e : GitignoreEntry) : Bool := e.type = GitignoreEntryType.comment

/-- `GitignoreEntry.is_blank`. -/
def GitignoreEntry.is_blank (e : GitignoreEntry) : Bool := e.type = GitignoreEntryType.blank

/-- `GitignoreEntry.is_path`. -/
def GitignoreEntry.is_path (e : GitignoreEntry) : Bool := e.type = GitignoreEntryType.path

/-- `GitignoreEntry.__str__`. -/
def GitignoreEntry.str (e : GitignoreEntry) : String :=
  if e.is_comment then "# " ++ e.value else e.value

/-- The exceptions raised by the module: `ValueError` and `GitignoreException`. -/
inductive PyError
  | valueError (msg : String)
  | gitignoreException (msg : String)
deriving DecidableEq

instance {ε α : Type} [DecidableEq ε] [DecidableEq α] : DecidableEq (Except ε α) := fun a b =>
  match a, b with
  | Except.error e, Except.error e' =>
    if h : e = e' then isTrue (by rw [h]) else isFalse (by intro hc; cases hc; exact h rfl)
  | Except.error _, Except.ok _ => isFalse (by intro hc; cases hc)
  | Except.ok _, Except.error _ => isFalse (by intro hc; cases hc)
  | Except.ok a, Except.ok a' =>
    if h : a = a' then isTrue (by rw [h]) else isFalse (by intro hc; cases hc; exact h rfl)

/-- `GitignoreFile`: entries of the user section plus the generated block
and its two optional digests. -/
structure GitignoreFile where
  entries : List GitignoreEntry
  generated_content : String := ""
  generated_content_hash : Option String := none
  parameters_hash : Option String := none
deriving DecidableEq

/-- The search `next((i for i, e in enumerate(l) if p e), None)`, carrying
the index of the head of the remaining list. -/
def findIdxFrom {α : Type} (p : α → Bool) : Nat → List α → Option Nat
  | _, [] => none
  | i, x :: xs => if p x then some i else findIdxFrom p (i + 1) xs

/-- `GitignoreFile.find_comment`: index of the first Comment entry whose
value, after `lstrip("#")` and `strip()`, equals `comment`. -/
def GitignoreFile.find_comment (g : GitignoreFile) (comment : String) : Option Nat :=
  findIdxFrom (fun e => e.is_comment && pyStrip (pyLStripHash e.value) == comment) 0 g.entries

/-- The behavior claim C8 ascribes to `find_comment`: index of the first
Comment entry whose value, after stripping only leading `'#'` characters
and leading whitespace, equals `comment` — written from the claim's words,
to be compared against `GitignoreFile.find_comment`. -/
def findCommentSpec (g : GitignoreFile) (comment : String) : Option Nat :=
  findIdxFrom (fun e => e.is_comment && pyLStrip (pyLStripHash e.value) == comment) 0 g.entries

/-- `GitignoreFile.add_comment` (`index` of `none` means append at the end;
Python's `list.insert` clamps an oversized index to the length). -/
def GitignoreFile.add_comment (g : GitignoreFile) (comment : String) (index : Option Nat) :
    GitignoreFile :=
  {g with entries := g.entries.insertIdx (min (index.getD g.entries.length) g.entries.length) ⟨GitignoreEntryType.comment, comment⟩}

/-- `GitignoreFile.add_blank`. -/
def GitignoreFile.add_blank (g : GitignoreFile) (index : Option Nat) : GitignoreFile :=
  {g with entries := g.entries.insertIdx (min (index.getD g.entries.length) g.entries.length) ⟨GitignoreEntryType.blank, ""⟩}

/-- `GitignoreFile.add_path`. -/
def GitignoreFile.add_path (g : GitignoreFile) (path : String) (index : Option Nat) :
    GitignoreFile :=
  {g with entries := g.entries.insertIdx (min (index.getD g.entries.length) g.entries.length) ⟨GitignoreEntryType.path, path⟩}

/-- One iteration of the `remove_path` loop: find the first Path entry
equal to `path` and delete it (`next((i for ...), None)` followed by
`del self.entries[index]`), or report that none matched. -/
def eraseFirstPath (path : String) : List GitignoreEntry → Option (List GitignoreEntry)
  | [] => none
  | e :: rest =>
    if e.is_path && e.value == path then some rest
    else (eraseFirstPath path rest).map (fun l => e :: l)

/-- The `while True` loop of `remove_path`, with fuel bounding the number
of iterations (any fuel of at least the number of matching entries gives
the loop's result). -/
def removePathLoop (path : String) : Nat → List GitignoreEntry → Nat → List GitignoreEntry × Nat
  | 0, entries, removed => (entries, removed)
  | fuel + 1, entries, removed =>
    match eraseFirstPath path entries with
    | none => (entries, removed)
    | some rest => removePathLoop path fuel rest (removed + 1)

/-- `GitignoreFile.remove_path`: delete every Path entry equal to `path`;
raise `ValueError` if none matched. -/
def GitignoreFile.remove_path (g : GitignoreFile) (path : String) :
    Except PyError GitignoreFile :=
  let res := removePathLoop path (g.entries.length + 1) g.entries 0
  if res.2 = 0 then
    Except.error (PyError.valueError ("\x22" ++ path ++ "\x22 not in GitignoreFile"))
  else Except.ok {g with entries := res.1}

/-- Python `str()` applied to the `Optional[str]` hash inside
`GENERATED_GUARD_START_TEMPLATE.format(...)`: `None` formats as `"None"`. -/
def hashToken : Option String → String
  | none => "None"
  | some h => h

/-- `GitignoreFile.render`. -/
def GitignoreFile.render (g : GitignoreFile) : String :=
  pyJoin "\n" [GENERATED_GUARD_START_LINE (hashToken g.generated_content_hash),
    g.generated_content, GENERATED_GUARD_END]
  ++ "\n" ++ pyJoin "\n" (g.entries.map GitignoreEntry.str) ++ "\n"

/-- The HTTP response observed by `refresh_generated_content` from
`httpx.get` (the external template provider). -/
structure HttpResponse where
  status_code : Nat
  text : String
deriving DecidableEq

/-- `GitignoreFile.refresh_generated_content`, with the provider's response
passed explicitly: on a non-200 status raise `GitignoreException` without
touching the document; on success store the new `parameters_hash` and
assemble the new `generated_content` from the banner, the parameters-hash
line, a blank line, the carriage-return-stripped fetched text, the extra
paths and the separator banner. -/
def GitignoreFile.refresh_generated_content (g : GitignoreFile)
    (tokens extra_paths : List String) (result : HttpResponse) :
    Except PyError GitignoreFile :=
  if result.status_code ≠ 200 then
    Except.error (PyError.gitignoreException
      ("Error status code returned from " ++ GITIGNORE_API_URL))
  else
    let fetched_content := pyStripCr result.text
    let ph := hash_parameters tokens extra_paths
    Except.ok {g with
      parameters_hash := some ph,
      generated_content := pyJoin "\n"
        ([GENERATED_GUARD_DESCRIPTION, PARAMETER_HASH_LINE ph, "", fetched_content,
          "# Extra paths"] ++ extra_paths ++ [GENERATED_SEPARATOR_LINE])}

/-- `GitignoreFile.refresh_generated_content_hash`. -/
def GitignoreFile.refresh_generated_content_hash (g : GitignoreFile) : GitignoreFile :=
  {g with generated_content_hash := some (hash_content g.generated_content)}

/-- `GitignoreFile.check_generation_parameters` (Python `Optional[str] == str`:
`None` compares unequal to any string). -/
def GitignoreFile.check_generation_parameters (g : GitignoreFile)
    (tokens extra_paths : List String) : Bool :=
  g.parameters_hash == some (hash_parameters tokens extra_paths)

/-- `GitignoreFile.check_generated_content_hash`. -/
def GitignoreFile.check_generated_content_hash (g : GitignoreFile) : Bool :=
  g.generated_content_hash == some (hash_content g.generated_content)

/-! #### Sorter -/

/-- The local `Group` named tuple of `sort_gitignore`. -/
structure SortGroup where
  comments : List String
  paths : List String
deriving DecidableEq

/-- The grouping scan of `sort_gitignore`, carrying the current group's
comments and paths (Python mutates `groups[-1]` in place): a Path appends
to the current paths; a Comment appends to the current comments unless
the current group already has paths, in which case it opens a new group;
Blanks are dropped. -/
def scanGroupsAux (comments paths : List String) : List GitignoreEntry → List SortGroup
  | [] => [⟨comments, paths⟩]
  | e :: rest =>
    match e.type with
    | GitignoreEntryType.path => scanGroupsAux comments (paths ++ [e.value]) rest
    | GitignoreEntryType.comment =>
      if paths.isEmpty then scanGroupsAux (comments ++ [e.value]) paths rest
      else ⟨comments, paths⟩ :: scanGroupsAux [e.value] [] rest
    | GitignoreEntryType.blank => scanGroupsAux comments paths rest

/-- The list of groups built by `sort_gitignore`, starting from the single
initial empty group. -/
def scanGroups (entries : List GitignoreEntry) : List SortGroup := scanGroupsAux [] [] entries

/-- The group sort key: `"\n".join(g.comments).lower()`. -/
def groupKey (g : SortGroup) : String := pyLower (pyJoin "\n" g.comments)

/-- The path sort key: `str.lower`. -/
def pathKey (p : String) : String := pyLower p

/-- The rebuild phase of `sort_gitignore`: one leading blank, then for each
group its comments, its (optionally sorted) paths and a trailing blank;
finally drop the last entry if it is a blank. -/
def buildGroups (sort_paths : Bool) (groups : List SortGroup) : List GitignoreEntry :=
  let body := groups.flatMap (fun g =>
    let ps := if sort_paths then pySort pathKey g.paths else g.paths
    g.comments.map (fun c => (⟨GitignoreEntryType.comment, c⟩ : GitignoreEntry)) ++
      ps.map (fun p => (⟨GitignoreEntryType.path, p⟩ : GitignoreEntry)) ++
      [⟨GitignoreEntryType.blank, ""⟩])
  let es := (⟨GitignoreEntryType.blank, ""⟩ : GitignoreEntry) :: body
  if (es.getLast?.map GitignoreEntry.is_blank).getD false then es.dropLast else es

/-- The entries `sort_gitignore` emits for one group when `sort_paths` is
false: its comments, its paths as stored, and a trailing blank (used to
reason about the rebuild phase). -/
def chunkEntries (g : SortGroup) : List GitignoreEntry :=
  g.comments.map (fun c => (⟨GitignoreEntryType.comment, c⟩ : GitignoreEntry)) ++
    g.paths.map (fun p => (⟨GitignoreEntryType.path, p⟩ : GitignoreEntry)) ++
    [⟨GitignoreEntryType.blank, ""⟩]

/-- `GitignoreFile.sort_gitignore`. -/
def GitignoreFile.sort_gitignore (g : GitignoreFile) (sort_paths sort_groups : Bool) :
    GitignoreFile :=
  let groups := scanGroups g.entries
  let groups := if sort_groups then pySort groupKey groups else groups
  {g with entries := buildGroups sort_paths groups}

/-! #### Parser -/

/-- The parser's two states. -/
inductive ParseMode
  | user
  | generated
deriving DecidableEq

/-- The parser's loop state: the document fields built so far, the
accumulated generated lines and the current state. -/
structure ParseAcc where
  entries : List GitignoreEntry
  generated_content : String
  generated_content_hash : Option String
  parameters_hash : Option String
  genLines : List String
  mode : ParseMode
deriving DecidableEq

/-- Classification of a line in USER state (after the start-guard test
failed): `#`-lines become Comments with the remainder left-stripped,
blank or all-whitespace lines become Blanks, anything else a verbatim
Path. -/
def classifyUserLine (line : String) : GitignoreEntry :=
  if startsWithHash line then
    ⟨GitignoreEntryType.comment, pyLStrip (String.mk (line.data.drop 1))⟩
  else if (pyStrip line).data.isEmpty then ⟨GitignoreEntryType.blank, ""⟩
  else ⟨GitignoreEntryType.path, line⟩

/-- One iteration of the parse loop on a (newline-stripped) line. -/
def parseStep (acc : ParseAcc) (line : String) : ParseAcc :=
  match acc.mode with
  | ParseMode.user =>
    match startGuardMatch line with
    | some h => {acc with generated_content_hash := some h, mode := ParseMode.generated}
    | none => {acc with entries := acc.entries ++ [classifyUserLine line]}
  | ParseMode.generated =>
    if line == GENERATED_GUARD_END then
      {acc with mode := ParseMode.user, generated_content := pyJoin "\n" acc.genLines}
    else
      let ph := match paramHashMatch line with
        | some h => some h
        | none => acc.parameters_hash
      {acc with genLines := acc.genLines ++ [line], parameters_hash := ph}

/-- The parser's initial state: `GitignoreFile([])` in USER state with no
accumulated generated lines. -/
def parseInit : ParseAcc := ⟨[], "", none, none, [], ParseMode.user⟩

/-- `GitignoreFile.parse` on an explicit line list: run the loop, then fail
if the generated section was never closed. -/
def parseLines (lines : List String) : Except PyError GitignoreFile :=
  let acc := lines.foldl parseStep parseInit
  if acc.mode = ParseMode.generated then
    Except.error (PyError.gitignoreException "Generated section never closed")
  else
    Except.ok ⟨acc.entries, acc.generated_content, acc.generated_content_hash,
      acc.parameters_hash⟩

/-- `GitignoreFile.parse` on a string input. -/
def GitignoreFile.parse (s : String) : Except PyError GitignoreFile := parseLines (pyLines s)

/-- The parameters-hash value visible after scanning a list of generated
lines, starting from `acc`: each matching line overwrites the value. -/
def scanParams (acc : Option String) (lines : List String) : Option String :=
  lines.foldl (fun acc line =>
    match paramHashMatch line with
    | some h => some h
    | none => acc) acc

/-! #### Well-formedness, formalizing "well-formed document without guard
corruption, hashes refreshed consistently beforehand" (claim C1)

An entry is well formed when its rendered line parses back to the same
entry and does not collide with the guard markers; a document is well
formed when all its entries are, the user section is nonempty, the start
guard's hash is present and newline-free, no generated line collides with
the end guard, and the parameters hash stored in the document is exactly
the one the parser recovers from the generated content. -/

/-- Well-formedness of a single entry (see the section comment). -/
def GitignoreEntry.wf (e : GitignoreEntry) : Bool :=
  match e.type with
  | GitignoreEntryType.comment =>
    !e.value.data.contains '\n' && pyLStrip e.value == e.value &&
      (startGuardMatch ("# " ++ e.value)).isNone
  | GitignoreEntryType.blank => e.value == ""
  | GitignoreEntryType.path =>
    !e.value.data.contains '\n' && !(e.value.data.head? == some '#') &&
      !(pyStrip e.value).data.isEmpty && (startGuardMatch e.value).isNone

/-- Well-formedness of a document (see the section comment). -/
def GitignoreFile.wf (g : GitignoreFile) : Bool :=
  !g.entries.isEmpty && g.entries.all GitignoreEntry.wf &&
    (match g.generated_content_hash with
     | none => false
     | some h => !h.data.contains '\n') &&
    (strLines g.generated_content).all (fun l => !(l == GENERATED_GUARD_END)) &&
    (scanParams none (strLines g.generated_content) == g.parameters_hash)

/-! ## Helper lemmas -/

theorem splitNl_ne_nil (l : List Char) : splitNl l ≠ [] := by
  induction l with
  | nil => simp [splitNl]
  | cons c rest ih =>
    simp only [splitNl]
    split
    · simp
    · cases h : splitNl rest with
      | nil => exact absurd h ih
      | cons x xs => simp [List.modifyHead]

theorem modifyHead_append_left {α : Type} (f : α → α) (a b : List α) (h : a ≠ []) :
    (a ++ b).modifyHead f = a.modifyHead f ++ b := by
  cases a with
  | nil => exact absurd rfl h
  | cons x xs => simp [List.modifyHead]

theorem splitNl_append_nl (x y : List Char) :
    splitNl (x ++ '\n' :: y) = splitNl x ++ splitNl y := by
  induction x with
  | nil => simp [splitNl]
  | cons c rest ih =>
    simp only [List.cons_append, splitNl]
    split
    · simp [ih]
    · rw [show rest.append ('\n' :: y) = rest ++ '\n' :: y from rfl, ih,
        modifyHead_append_left _ _ _ (splitNl_ne_nil rest)]

theorem splitNl_no_nl (l : List Char) (h : '\n' ∉ l) : splitNl l = [l] := by
  induction l with
  | nil => rfl
  | cons c rest ih =>
    simp only [List.mem_cons, not_or] at h
    simp only [splitNl, if_neg (Ne.symm h.1 )]
    rw [ih h.2]
    rfl

theorem charJoin_splitNl (l : List Char) : charJoin (splitNl l) = l := by
  induction l with
  | nil => rfl
  | cons c rest ih =>
    simp only [splitNl]
    split
    · subst c
      cases h : splitNl rest with
      | nil => exact absurd h (splitNl_ne_nil rest)
      | cons p t =>
        rw [h] at ih
        simp [charJoin, ih]
    · cases h : splitNl rest with
      | nil => exact absurd h (splitNl_ne_nil rest)
      | cons p t =>
        rw [h] at ih
        cases t with
        | nil =>
          simp only [charJoin] at ih
          simp [List.modifyHead, charJoin, ih]
        | cons q t' =>
          simp only [charJoin] at ih ⊢
          simp [List.modifyHead, charJoin, ← ih]

theorem splitNl_charJoin (ps : List (List Char)) (hne : ps ≠ [])
    (hnl : ∀ p ∈ ps, '\n' ∉ p) : splitNl (charJoin ps) = ps := by
  induction ps with
  | nil => exact absurd rfl hne
  | cons p t ih =>
    cases t with
    | nil =>
      simp only [charJoin]
      exact splitNl_no_nl p (hnl p (by simp))
    | cons q t' =>
      simp only [charJoin, splitNl_append_nl]
      rw [splitNl_no_nl p (hnl p (by simp)), ih (by simp)
        (fun r hr => hnl r (List.mem_cons_of_mem p hr))]
      rfl

theorem data_pyJoin_nl (pieces : List String) :
    (pyJoin "\n" pieces).data = charJoin (pieces.map String.data) := by
  induction pieces with
  | nil => rfl
  | cons p t ih =>
    cases t with
    | nil => rfl
    | cons q t' =>
      simp only [pyJoin, charJoin, List.map_cons, String.data_append, List.append_assoc] at ih ⊢
      rw [ih]
      rfl

theorem join_strLines (s : String) : pyJoin "\n" (strLines s) = s := by
  apply String.ext
  rw [data_pyJoin_nl]
  have : (strLines s).map String.data = splitNl s.data := by
    simp only [strLines, List.map_map]
    have : String.data ∘ String.mk = id := rfl
    rw [this, List.map_id]
  rw [this, charJoin_splitNl]

theorem strLines_pyJoin (pieces : List String) (hne : pieces ≠ [])
    (hnl : ∀ p ∈ pieces, '\n' ∉ p.data) : strLines (pyJoin "\n" pieces) = pieces := by
  simp only [strLines, data_pyJoin_nl]
  rw [splitNl_charJoin (pieces.map String.data)
    (by simpa using hne)
    (by intro p hp
        obtain ⟨q, hq, rfl⟩ := List.mem_map.mp hp
        exact hnl q hq)]
  simp only [List.map_map]
  have : String.mk ∘ String.data = id := rfl
  rw [this, List.map_id]

theorem strLines_append_mk (t : String) (rest : List Char) :
    strLines (String.mk (t.data ++ '\n' :: rest)) = strLines t ++ strLines (String.mk rest) := by
  simp [strLines, splitNl_append_nl]

theorem pyLines_append_nl (t : String) : pyLines (t ++ "\n") = strLines t := by
  have hdata : (t ++ "\n").data = t.data ++ '\n' :: [] := by simp [String.data_append]
  simp only [pyLines, strLines, hdata, splitNl_append_nl]
  have : splitNl ([] : List Char) = [[]] := rfl
  rw [this]
  simp only [List.map_append, List.map_cons, List.map_nil]
  rw [List.getLast?_concat]
  simp [List.dropLast_concat]

/-! ### Lemmas about `findIdxFrom` -/

theorem findIdxFrom_eq_none_iff {α : Type} (p : α → Bool) (k : Nat) (l : List α) :
    findIdxFrom p k l = none ↔ ∀ a ∈ l, p a = false := by
  induction l generalizing k with
  | nil => simp [findIdxFrom]
  | cons x xs ih =>
    simp only [findIdxFrom]
    split
    case isTrue h =>
      simp only [List.mem_cons]
      constructor
      · intro hc; cases hc
      · intro hall; rw [hall x (Or.inl rfl)] at h; cases h
    case isFalse h =>
      rw [ih]
      simp only [List.mem_cons]
      constructor
      · intro hall a ha
        rcases ha with rfl | ha
        · simpa using h
        · exact hall a ha
      · intro hall a ha
        exact hall a (Or.inr ha)

theorem findIdxFrom_shift {α : Type} (p : α → Bool) (k : Nat) (l : List α) :
    findIdxFrom p k l = (findIdxFrom p 0 l).map (fun n => k + n) := by
  induction l generalizing k with
  | nil => simp [findIdxFrom]
  | cons x xs ih =>
    simp only [findIdxFrom]
    split
    · simp
    · rw [ih (k + 1), ih 1]
      cases findIdxFrom p 0 xs <;> simp <;> omega

theorem findIdxFrom_zero_eq_some_iff {α : Type} (p : α → Bool) (l : List α) (i : Nat) :
    findIdxFrom p 0 l = some i ↔
      ∃ hi : i < l.length, p (l.get ⟨i, hi⟩) = true ∧
        ∀ j (hj : j < l.length), j < i → p (l.get ⟨j, hj⟩) = false := by
  induction l generalizing i with
  | nil => simp [findIdxFrom]
  | cons x xs ih =>
    simp only [findIdxFrom]
    split
    case isTrue h =>
      constructor
      · intro hsome
        injection hsome with hi0
        subst hi0
        exact ⟨by simp, by simpa using h, by intro j hj hji; omega⟩
      · rintro ⟨hi, hp, hmin⟩
        cases i with
        | zero => rfl
        | succ n =>
          have h0 := hmin 0 (by simp) (by omega)
          simp only [List.get] at h0
          rw [h0] at h
          cases h
    case isFalse h =>
      rw [findIdxFrom_shift p 1 xs]
      constructor
      · intro hmap
        rcases Option.map_eq_some'.mp hmap with ⟨i', hi', rfl⟩
        rcases (ih i').mp hi' with ⟨hlen, hp, hmin⟩
        refine ⟨by simp; omega, ?_, ?_⟩
        · have h1i : 1 + i' = i' + 1 := by omega
          simp only [h1i, List.get_cons_succ]
          exact hp
        intro j hj hji
        cases j with
        | zero => simpa using h
        | succ m =>
          have := hmin m (by simp at hj ⊢; omega) (by omega)
          simpa using this
      · rintro ⟨hi, hp, hmin⟩
        cases i with
        | zero =>
          simp only [List.get] at hp
          exact absurd hp h
        | succ n =>
          have hn : n < xs.length := by simpa using Nat.lt_of_succ_lt_succ hi
          have hp' : p (xs.get ⟨n, hn⟩) = true := by simpa using hp
          have hmin' : ∀ j (hj : j < xs.length), j < n → p (xs.get ⟨j, hj⟩) = false := by
            intro j hj hjn
            have := hmin (j + 1) (by simpa using Nat.succ_lt_succ hj) (by omega)
            simpa using this
          rw [Option.map_eq_some']
          exact ⟨n, (ih n).mpr ⟨hn, hp', hmin'⟩, by omega⟩

/-! ### Lemmas about `remove_path` -/

theorem eraseFirstPath_none_iff (path : String) (l : List GitignoreEntry) :
    eraseFirstPath path l = none ↔ ∀ e ∈ l, (e.is_path && e.value == path) = false := by
  induction l with
  | nil => simp [eraseFirstPath]
  | cons x xs ih =>
    simp only [eraseFirstPath]
    split
    case isTrue h =>
      simp only [List.mem_cons]
      constructor
      · intro hc; cases hc
      · intro hall; rw [hall x (Or.inl rfl)] at h; cases h
    case isFalse h =>
      simp only [Option.map_eq_none', ih, List.mem_cons]
      constructor
      · intro hall a ha
        rcases ha with rfl | ha
        · simpa using h
        · exact hall a ha
      · intro hall a ha
        exact hall a (Or.inr ha)

theorem eraseFirstPath_some (path : String) (l l' : List GitignoreEntry)
    (h : eraseFirstPath path l = some l') :
    l'.filter (fun e => !(e.is_path && e.value == path)) =
      l.filter (fun e => !(e.is_path && e.value == path)) ∧
    l'.countP (fun e => e.is_path && e.value == path) + 1 =
      l.countP (fun e => e.is_path && e.value == path) := by
  induction l generalizing l' with
  | nil => cases h
  | cons x xs ih =>
    simp only [eraseFirstPath] at h
    by_cases hx : (x.is_path && x.value == path) = true
    · rw [if_pos hx] at h
      injection h with h
      subst h
      constructor
      · rw [List.filter_cons_of_neg (by simp [hx])]
      · rw [List.countP_cons]
        simp [hx]
    · rw [if_neg hx] at h
      rcases Option.map_eq_some'.mp h with ⟨l'', hl'', rfl⟩
      rcases ih l'' hl'' with ⟨hf, hc⟩
      have hxf : (x.is_path && x.value == path) = false := by simpa using hx
      constructor
      · rw [List.filter_cons_of_pos (by simp [hxf]), List.filter_cons_of_pos (by simp [hxf]), hf]
      · rw [List.countP_cons, List.countP_cons]
        simp only [hxf]
        omega

theorem removePathLoop_spec (path : String) (fuel : Nat) (l : List GitignoreEntry) (r : Nat)
    (h : l.countP (fun e => e.is_path && e.value == path) ≤ fuel) :
    removePathLoop path fuel l r =
      (l.filter (fun e => !(e.is_path && e.value == path)),
        r + l.countP (fun e => e.is_path && e.value == path)) := by
  induction fuel generalizing l r with
  | zero =>
    have hc : l.countP (fun e => e.is_path && e.value == path) = 0 := Nat.le_zero.mp h
    have hall := List.countP_eq_zero.mp hc
    have hfe : l.filter (fun e => !(e.is_path && e.value == path)) = l :=
      List.filter_eq_self.mpr (by intro a ha; simp [hall a ha])
    rw [removePathLoop, hc, hfe]
    simp
  | succ fuel ih =>
    rw [removePathLoop]
    cases herase : eraseFirstPath path l with
    | none =>
      have hall := (eraseFirstPath_none_iff path l).mp herase
      have hc : l.countP (fun e => e.is_path && e.value == path) = 0 :=
        List.countP_eq_zero.mpr (by intro a ha; simpa using congrArg (· = false) (hall a ha))
      have hfe : l.filter (fun e => !(e.is_path && e.value == path)) = l :=
        List.filter_eq_self.mpr (by intro a ha; simp [hall a ha])
      simp only [hc, hfe, Nat.add_zero]
    | some rest =>
      rcases eraseFirstPath_some path l rest herase with ⟨hf, hc⟩
      have hrec := ih rest (r + 1) (by omega)
      simp only [hrec, hf, Prod.mk.injEq, true_and]
      omega

/-! ## Claim theorems (first batch) -/

/-- C2: `remove_path` deletes every Path entry whose value equals the
argument, keeping all other entries in order (a filter), and raises the
not-found `ValueError` when no entry matched; in particular with Path "a"
present three times, one call removes all of them and a second call
fails. -/
theorem remove_path_filter :
    (∀ (g : GitignoreFile) (path : String),
      g.remove_path path =
        if g.entries.any (fun e => e.is_path && e.value == path) then
          Except.ok {g with entries := g.entries.filter (fun e => !(e.is_path && e.value == path))}
        else Except.error (PyError.valueError ("\x22" ++ path ++ "\x22 not in GitignoreFile"))) ∧
    GitignoreFile.remove_path ⟨[⟨GitignoreEntryType.path, "a"⟩, ⟨GitignoreEntryType.path, "a"⟩,
        ⟨GitignoreEntryType.comment, "c"⟩, ⟨GitignoreEntryType.path, "b"⟩,
        ⟨GitignoreEntryType.path, "a"⟩], "", none, none⟩ "a" =
      Except.ok ⟨[⟨GitignoreEntryType.comment, "c"⟩, ⟨GitignoreEntryType.path, "b"⟩],
        "", none, none⟩ ∧
    GitignoreFile.remove_path ⟨[⟨GitignoreEntryType.comment, "c"⟩,
        ⟨GitignoreEntryType.path, "b"⟩], "", none, none⟩ "a" =
      Except.error (PyError.valueError "\x22a\x22 not in GitignoreFile") := by
  refine ⟨?_, by decide, by decide⟩
  intro g path
  have hle : g.entries.countP (fun e => e.is_path && e.value == path) ≤ g.entries.length + 1 :=
    Nat.le_succ_of_le (List.countP_le_length _)
  have hspec := removePathLoop_spec path (g.entries.length + 1) g.entries 0 hle
  simp only [GitignoreFile.remove_path, hspec, Nat.zero_add]
  by_cases hz : g.entries.countP (fun e => e.is_path && e.value == path) = 0
  · have hany : g.entries.any (fun e => e.is_path && e.value == path) = false := by
      rw [List.any_eq_false]
      intro e he
      simpa using List.countP_eq_zero.mp hz e he
    rw [if_pos hz, hany]
    simp
  · have hany : g.entries.any (fun e => e.is_path && e.value == path) = true := by
      rw [List.any_eq_true]
      by_contra hno
      push_neg at hno
      exact hz (List.countP_eq_zero.mpr (by
        intro a ha
        simpa using hno a ha))
    rw [if_neg hz, hany]
    simp

/-- C8 is refuted as stated: `find_comment` compares using
`lstrip("#").strip()`, which also strips trailing whitespace, so a Comment
entry with value `"t "` is found when searching for `"t"`, while the
claim's leading-only stripping finds nothing. -/
theorem find_comment_strips_trailing_whitespace :
    GitignoreFile.find_comment ⟨[⟨GitignoreEntryType.comment, "t "⟩], "", none, none⟩ "t" =
      some 0 ∧
    findCommentSpec ⟨[⟨GitignoreEntryType.comment, "t "⟩], "", none, none⟩ "t" = none := by
  decide

/-- C8 amended: `find_comment t` returns the index of the first Comment
entry whose value, after stripping leading `'#'` characters and then
surrounding whitespace (leading and trailing), equals `t`, and `none`
when no such entry exists. -/
theorem find_comment_first_index : ∀ (g : GitignoreFile) (t : String),
    (∀ i : Nat, g.find_comment t = some i ↔
      ∃ hi : i < g.entries.length,
        ((g.entries.get ⟨i, hi⟩).type = GitignoreEntryType.comment ∧
          pyStrip (pyLStripHash (g.entries.get ⟨i, hi⟩).value) = t) ∧
        ∀ j (hj : j < g.entries.length), j < i →
          ¬((g.entries.get ⟨j, hj⟩).type = GitignoreEntryType.comment ∧
            pyStrip (pyLStripHash (g.entries.get ⟨j, hj⟩).value) = t)) ∧
    (g.find_comment t = none ↔ ∀ e ∈ g.entries,
      ¬(e.type = GitignoreEntryType.comment ∧ pyStrip (pyLStripHash e.value) = t)) := by
  intro g t
  have hp : ∀ e : GitignoreEntry, (e.is_comment && pyStrip (pyLStripHash e.value) == t) = true ↔
      (e.type = GitignoreEntryType.comment ∧ pyStrip (pyLStripHash e.value) = t) := by
    intro e
    simp [GitignoreEntry.is_comment]
  have hpf : ∀ e : GitignoreEntry, (e.is_comment && pyStrip (pyLStripHash e.value) == t) = false ↔
      ¬(e.type = GitignoreEntryType.comment ∧ pyStrip (pyLStripHash e.value) = t) := by
    intro e
    rw [← hp e]
    cases (e.is_comment && pyStrip (pyLStripHash e.value) == t) <;> simp
  constructor
  · intro i
    rw [GitignoreFile.find_comment, findIdxFrom_zero_eq_some_iff]
    constructor
    · rintro ⟨hi, hpi, hmin⟩
      exact ⟨hi, (hp _).mp hpi, fun j hj hji => (hpf _).mp (hmin j hj hji)⟩
    · rintro ⟨hi, hpi, hmin⟩
      exact ⟨hi, (hp _).mpr hpi, fun j hj hji => (hpf _).mpr (hmin j hj hji)⟩
  · rw [GitignoreFile.find_comment, findIdxFrom_eq_none_iff]
    constructor
    · intro hall e he
      exact (hpf e).mp (hall e he)
    · intro hall e he
      exact (hpf e).mpr (hall e he)

/-- C10: `hash_parameters` depends only on the comma-join of
`tokens ++ extra_paths`, so distinct argument pairs collide — moving an
element between the lists, or embedding the separator in a token, yields
the same digest — and consequently `check_generation_parameters` accepts
inputs different from those that produced the stored hash. -/
theorem hash_parameters_depends_only_on_join :
    (hash_parameters ["a", "b"] [] = hash_parameters ["a"] ["b"] ∧
      ¬(["a", "b"] = ["a"] ∧ ([] : List String) = ["b"])) ∧
    (hash_parameters ["a,b"] [] = hash_parameters ["a", "b"] [] ∧
      ("a,b" :: ([] : List String)) ≠ ["a", "b"]) ∧
    (GitignoreFile.refresh_generated_content ⟨[], "", none, none⟩ ["a", "b"] []
        ⟨200, "body"⟩).map (fun g => g.check_generation_parameters ["a"] ["b"]) =
      Except.ok true := by
  have h1 : hash_parameters ["a"] ["b"] = hash_parameters ["a", "b"] [] := rfl
  refine ⟨⟨rfl, by decide⟩, ⟨congrArg hash_content (by decide), by decide⟩, ?_⟩
  rw [GitignoreFile.refresh_generated_content, if_neg (by decide)]
  simp only [Except.map, GitignoreFile.check_generation_parameters]
  rw [h1]
  simp

/-- C4 amended: immediately after a successful
`refresh_generated_content(tokens, extra_paths)`,
`check_generation_parameters(tokens, extra_paths)` is true; a different
argument pair makes it false exactly when its parameters digest differs —
argument pairs whose comma-joins coincide (see the counterexample) still
check as true, so changing an argument does not always make it false. -/
theorem check_generation_parameters_after_refresh : ∀ (g g' : GitignoreFile)
    (tokens extra_paths tokens' extra_paths' : List String) (r : HttpResponse),
    g.refresh_generated_content tokens extra_paths r = Except.ok g' →
    g'.check_generation_parameters tokens extra_paths = true ∧
    (g'.check_generation_parameters tokens' extra_paths' = true ↔
      hash_parameters tokens' extra_paths' = hash_parameters tokens extra_paths) := by
  intro g g' tokens extra_paths tokens' extra_paths' r hok
  rw [GitignoreFile.refresh_generated_content] at hok
  by_cases hs : r.status_code ≠ 200
  · rw [if_pos hs] at hok
    cases hok
  · rw [if_neg hs] at hok
    injection hok with hok
    subst hok
    constructor
    · simp [GitignoreFile.check_generation_parameters]
    · simp only [GitignoreFile.check_generation_parameters]
      rw [beq_iff_eq]
      simp [eq_comm]

/-- Witness for the amended C4 at concrete inputs. -/
theorem check_generation_parameters_after_refresh_witness :
    GitignoreFile.check_generation_parameters
      ⟨[], pyJoin "\n" ([GENERATED_GUARD_DESCRIPTION,
          PARAMETER_HASH_LINE (hash_parameters ["x"] ["y"]), "", pyStripCr "body",
          "# Extra paths"] ++ ["y"] ++ [GENERATED_SEPARATOR_LINE]), none,
        some (hash_parameters ["x"] ["y"])⟩ ["x"] ["y"] = true :=
  (check_generation_parameters_after_refresh ⟨[], "", none, none⟩ _ ["x"] ["y"] ["x"] ["y"]
    ⟨200, "body"⟩ rfl).1

/-- C4 is refuted as stated: after `refresh(["u","v"], [])`, the pair
`(["u"], ["v"])` differs in both arguments yet still checks as true,
because the comma-joins coincide. -/
theorem check_generation_parameters_not_injective :
    (GitignoreFile.refresh_generated_content ⟨[], "", none, none⟩ ["u", "v"] []
        ⟨200, "t"⟩).map (fun g => g.check_generation_parameters ["u"] ["v"]) =
      Except.ok true ∧
    ¬(["u", "v"] = ["u"] ∧ ([] : List String) = ["v"]) := by
  have h1 : hash_parameters ["u"] ["v"] = hash_parameters ["u", "v"] [] := rfl
  refine ⟨?_, by decide⟩
  rw [GitignoreFile.refresh_generated_content, if_neg (by decide)]
  simp only [Except.map, GitignoreFile.check_generation_parameters]
  rw [h1]
  simp

/-- C7: `refresh_generated_content` never changes `entries` or
`generated_content_hash` — on success only `generated_content` and
`parameters_hash` are replaced — and on a non-success provider status it
raises `GitignoreException`, leaving the document unchanged (in this pure
embedding, the error branch returns no document at all). -/
theorem refresh_generated_content_frame : ∀ (g : GitignoreFile)
    (tokens extra_paths : List String) (r : HttpResponse),
    (∀ g', g.refresh_generated_content tokens extra_paths r = Except.ok g' →
      g'.entries = g.entries ∧ g'.generated_content_hash = g.generated_content_hash) ∧
    (r.status_code ≠ 200 → g.refresh_generated_content tokens extra_paths r =
      Except.error (PyError.gitignoreException
        ("Error status code returned from " ++ GITIGNORE_API_URL))) := by
  intro g tokens extra_paths r
  constructor
  · intro g' hok
    rw [GitignoreFile.refresh_generated_content] at hok
    by_cases hs : r.status_code ≠ 200
    · rw [if_pos hs] at hok
      cases hok
    · rw [if_neg hs] at hok
      injection hok with hok
      subst hok
      exact ⟨rfl, rfl⟩
  · intro hs
    rw [GitignoreFile.refresh_generated_content, if_pos hs]

/-- Witness for C7 at concrete inputs: a successful refresh keeps the
entries, and a 500 status yields the provider error. -/
theorem refresh_generated_content_frame_witness :
    (⟨[⟨GitignoreEntryType.path, "p"⟩], pyJoin "\n" ([GENERATED_GUARD_DESCRIPTION,
        PARAMETER_HASH_LINE (hash_parameters ["t"] ["e"]), "", pyStripCr "x",
        "# Extra paths"] ++ ["e"] ++ [GENERATED_SEPARATOR_LINE]), some "h",
      some (hash_parameters ["t"] ["e"])⟩ : GitignoreFile).entries =
      [⟨GitignoreEntryType.path, "p"⟩] ∧
    GitignoreFile.refresh_generated_content
        ⟨[⟨GitignoreEntryType.path, "p"⟩], "g", some "h", none⟩ ["t"] ["e"] ⟨500, "x"⟩ =
      Except.error (PyError.gitignoreException
        ("Error status code returned from " ++ GITIGNORE_API_URL)) :=
  ⟨((refresh_generated_content_frame ⟨[⟨GitignoreEntryType.path, "p"⟩], "g", some "h", none⟩
      ["t"] ["e"] ⟨200, "x"⟩).1 _ rfl).1,
   (refresh_generated_content_frame ⟨[⟨GitignoreEntryType.path, "p"⟩], "g", some "h", none⟩
      ["t"] ["e"] ⟨500, "x"⟩).2 (by decide)⟩

/-- C6: parsing the two-section fixture and sorting with default flags
(`sort_paths` true, `sort_groups` false) yields the group
`(["Section A"], ["bar", "foo"])` followed by `(["Section B"], ["baz"])`,
each path list case-insensitively sorted, the groups separated by single
blank entries with no trailing blank. -/
theorem parse_sort_scenario :
    (GitignoreFile.parse "# Section A\nfoo\nbar\n# Section B\nbaz\n").map
        (fun g => (g.sort_gitignore true false).entries) =
      Except.ok [⟨GitignoreEntryType.blank, ""⟩, ⟨GitignoreEntryType.comment, "Section A"⟩,
        ⟨GitignoreEntryType.path, "bar"⟩, ⟨GitignoreEntryType.path, "foo"⟩,
        ⟨GitignoreEntryType.blank, ""⟩, ⟨GitignoreEntryType.comment, "Section B"⟩,
        ⟨GitignoreEntryType.path, "baz"⟩] ∧
    (GitignoreFile.parse "# Section A\nfoo\nbar\n# Section B\nbaz\n").map
        (fun g => scanGroups (g.sort_gitignore true false).entries) =
      Except.ok [⟨["Section A"], ["bar", "foo"]⟩, ⟨["Section B"], ["baz"]⟩] := by
  decide

/-- C5 is refuted for `sort_groups = true`: after one sort a comment-only
group can precede another group; a second sort then merges its comment
into the following group, changing the entries. -/
theorem sort_gitignore_not_idempotent_with_sort_groups :
    ((GitignoreFile.mk [⟨GitignoreEntryType.path, "p"⟩, ⟨GitignoreEntryType.comment, "b"⟩,
          ⟨GitignoreEntryType.path, "q"⟩, ⟨GitignoreEntryType.comment, "a"⟩] "" none
          none).sort_gitignore true true).sort_gitignore true true ≠
      (GitignoreFile.mk [⟨GitignoreEntryType.path, "p"⟩, ⟨GitignoreEntryType.comment, "b"⟩,
          ⟨GitignoreEntryType.path, "q"⟩, ⟨GitignoreEntryType.comment, "a"⟩] "" none
          none).sort_gitignore true true := by
  decide

/-! ### Render and parse helper lemmas -/

theorem mk_data (s : String) : String.mk s.data = s := rfl

theorem strLines_render_decomp (A B C J : String) (hA : '\n' ∉ A.data) (hC : '\n' ∉ C.data) :
    strLines (A ++ "\n" ++ B ++ "\n" ++ C ++ "\n" ++ J) =
      A :: (strLines B ++ [C] ++ strLines J) := by
  have hn : ("\n" : String).data = ['\n'] := rfl
  have hdata : (A ++ "\n" ++ B ++ "\n" ++ C ++ "\n" ++ J).data =
      A.data ++ '\n' :: (B.data ++ '\n' :: (C.data ++ '\n' :: J.data)) := by
    simp [String.data_append, hn]
  simp only [strLines, hdata, splitNl_append_nl, splitNl_no_nl A.data hA,
    splitNl_no_nl C.data hC, List.map_append, List.map_cons, List.map_nil, mk_data]
  simp [List.append_assoc]

theorem data_guard_start_line (h : String) :
    (GENERATED_GUARD_START_LINE h).data =
      "### START-GENERATED-CONTENT [HASH: ".data ++ h.data ++ "]".data := by
  simp [GENERATED_GUARD_START_LINE, String.data_append]

theorem nl_not_mem_guard_start_line (h : String) (hh : '\n' ∉ h.data) :
    '\n' ∉ (GENERATED_GUARD_START_LINE h).data := by
  rw [data_guard_start_line]
  intro hmem
  rcases List.mem_append.mp hmem with hmem | hmem
  · rcases List.mem_append.mp hmem with hmem | hmem
    · exact absurd hmem (by decide)
    · exact hh hmem
  · exact absurd hmem (by decide)

theorem render_decomp (g : GitignoreFile) :
    g.render = GENERATED_GUARD_START_LINE (hashToken g.generated_content_hash) ++ "\n" ++
      g.generated_content ++ "\n" ++ GENERATED_GUARD_END ++ "\n" ++
      pyJoin "\n" (g.entries.map GitignoreEntry.str) ++ "\n" := by
  apply String.ext
  simp [GitignoreFile.render, pyJoin, String.data_append, List.append_assoc]

theorem pyLines_render (g : GitignoreFile)
    (hh : '\n' ∉ (hashToken g.generated_content_hash).data) :
    pyLines g.render = GENERATED_GUARD_START_LINE (hashToken g.generated_content_hash) ::
      (strLines g.generated_content ++ [GENERATED_GUARD_END] ++
        strLines (pyJoin "\n" (g.entries.map GitignoreEntry.str))) := by
  rw [render_decomp, pyLines_append_nl]
  exact strLines_render_decomp _ _ _ _ (nl_not_mem_guard_start_line _ hh) (by decide)

/-! ### Parse loop stepping lemmas -/

theorem parseStep_user_none (acc : ParseAcc) (line : String) (hm : acc.mode = ParseMode.user)
    (hg : startGuardMatch line = none) :
    parseStep acc line = {acc with entries := acc.entries ++ [classifyUserLine line]} := by
  simp [parseStep, hm, hg]

theorem parseStep_user_guard (acc : ParseAcc) (line : String) (h : String)
    (hm : acc.mode = ParseMode.user) (hg : startGuardMatch line = some h) :
    parseStep acc line =
      {acc with generated_content_hash := some h, mode := ParseMode.generated} := by
  simp [parseStep, hm, hg]

theorem parseStep_gen_end (acc : ParseAcc) (hm : acc.mode = ParseMode.generated) :
    parseStep acc GENERATED_GUARD_END =
      {acc with mode := ParseMode.user, generated_content := pyJoin "\n" acc.genLines} := by
  simp [parseStep, hm]

theorem parseStep_gen_line (acc : ParseAcc) (line : String)
    (hm : acc.mode = ParseMode.generated) (hne : line ≠ GENERATED_GUARD_END) :
    parseStep acc line =
      {acc with
        genLines := acc.genLines ++ [line],
        parameters_hash := (match paramHashMatch line with
          | some h => some h
          | none => acc.parameters_hash)} := by
  have hb : (line == GENERATED_GUARD_END) = false := beq_eq_false_iff_ne.mpr hne
  simp [parseStep, hm, hb]

theorem foldl_parseStep_user (lines : List String) : ∀ acc : ParseAcc,
    acc.mode = ParseMode.user → (∀ l ∈ lines, startGuardMatch l = none) →
    lines.foldl parseStep acc =
      {acc with entries := acc.entries ++ lines.map classifyUserLine} := by
  induction lines with
  | nil =>
    intro acc hm _
    simp
  | cons l ls ih =>
    intro acc hm hall
    rw [List.foldl_cons, parseStep_user_none acc l hm (hall l (by simp))]
    rw [ih _ (by simp [hm]) (fun x hx => hall x (by simp [hx]))]
    simp

theorem foldl_parseStep_gen (lines : List String) : ∀ acc : ParseAcc,
    acc.mode = ParseMode.generated → (∀ l ∈ lines, l ≠ GENERATED_GUARD_END) →
    lines.foldl parseStep acc =
      {acc with
        genLines := acc.genLines ++ lines,
        parameters_hash := scanParams acc.parameters_hash lines} := by
  induction lines with
  | nil =>
    intro acc hm _
    simp [scanParams]
  | cons l ls ih =>
    intro acc hm hall
    rw [List.foldl_cons, parseStep_gen_line acc l hm (hall l (by simp))]
    rw [ih _ (by simp [hm]) (fun x hx => hall x (by simp [hx]))]
    simp [scanParams]

theorem startGuardMatch_end_none : startGuardMatch GENERATED_GUARD_END = none := by
  decide

theorem parse_mode_generated_of_guard (lines : List String) : ∀ (acc : ParseAcc) (i : Nat)
    (hi : i < lines.length), (startGuardMatch (lines.get ⟨i, hi⟩)).isSome = true →
    (∀ j (hj : j < lines.length), i < j → lines.get ⟨j, hj⟩ ≠ GENERATED_GUARD_END) →
    (lines.foldl parseStep acc).mode = ParseMode.generated := by
  induction lines with
  | nil =>
    intro acc i hi
    exact absurd hi (by simp)
  | cons l ls ih =>
    intro acc i hi hsome hafter
    cases i with
    | zero =>
      simp only [List.get] at hsome
      have hallls : ∀ x ∈ ls, x ≠ GENERATED_GUARD_END := by
        intro x hx
        rcases List.mem_iff_getElem.mp hx with ⟨k, hk, rfl⟩
        have := hafter (k + 1) (by simp; omega) (by omega)
        simpa using this
      rw [List.foldl_cons]
      cases hmode : acc.mode with
      | user =>
        rcases Option.isSome_iff_exists.mp hsome with ⟨h, hh⟩
        rw [parseStep_user_guard acc l h hmode hh]
        rw [foldl_parseStep_gen ls _ (by simp) hallls]
      | generated =>
        have hlne : l ≠ GENERATED_GUARD_END := by
          intro he
          rw [he, startGuardMatch_end_none] at hsome
          cases hsome
        rw [parseStep_gen_line acc l hmode hlne]
        rw [foldl_parseStep_gen ls _ (by simp [hmode]) hallls]
        simp [hmode]
    | succ n =>
      have hn : n < ls.length := by
        simp at hi
        omega
      rw [List.foldl_cons]
      apply ih (parseStep acc l) n hn
      · simpa using hsome
      · intro j hj hnj
        have := hafter (j + 1) (by simp; omega) (by omega)
        simpa using this

/-- C3: if some line is a start-guard line and no later line equals the
end-guard marker, parsing fails with the malformed-input error; if no line
matches the start-guard pattern, parsing succeeds, classifies every line
as a user entry, and leaves both hash fields unset (and the generated
content empty). -/
theorem parse_unclosed_guard_and_no_guard : ∀ s : String,
    ((∃ i, ∃ hi : i < (pyLines s).length,
        (startGuardMatch ((pyLines s).get ⟨i, hi⟩)).isSome = true ∧
        ∀ j (hj : j < (pyLines s).length), i < j →
          (pyLines s).get ⟨j, hj⟩ ≠ GENERATED_GUARD_END) →
      GitignoreFile.parse s =
        Except.error (PyError.gitignoreException "Generated section never closed")) ∧
    ((∀ l ∈ pyLines s, startGuardMatch l = none) →
      GitignoreFile.parse s =
        Except.ok ⟨(pyLines s).map classifyUserLine, "", none, none⟩) := by
  intro s
  constructor
  · rintro ⟨i, hi, hsome, hafter⟩
    simp only [GitignoreFile.parse, parseLines]
    rw [if_pos (parse_mode_generated_of_guard (pyLines s) parseInit i hi hsome hafter)]
  · intro hall
    simp only [GitignoreFile.parse, parseLines]
    rw [foldl_parseStep_user (pyLines s) parseInit rfl hall]
    simp [parseInit]

/-- Witness for C3 at concrete inputs: an unterminated start guard raises
the malformed-input error; guard-free input becomes user entries with both
hashes unset. -/
theorem parse_unclosed_guard_and_no_guard_witness :
    GitignoreFile.parse "### START-GENERATED-CONTENT [HASH: x]\nfoo\n" =
      Except.error (PyError.gitignoreException "Generated section never closed") ∧
    GitignoreFile.parse "a\n# c\n\n" =
      Except.ok ⟨[⟨GitignoreEntryType.path, "a"⟩, ⟨GitignoreEntryType.comment, "c"⟩,
        ⟨GitignoreEntryType.blank, ""⟩], "", none, none⟩ := by
  constructor
  · exact (parse_unclosed_guard_and_no_guard "### START-GENERATED-CONTENT [HASH: x]\nfoo\n").1
      ⟨0, by decide, by decide, by decide⟩
  · rw [(parse_unclosed_guard_and_no_guard "a\n# c\n\n").2 (by decide)]
    decide

/-- C9: rendering a document whose `generated_content_hash` is unset does
not fail: the start guard is emitted with the placeholder token `None` in
the hash position, followed by the generated content, the end guard and
the stringified user entries, and the first rendered line is exactly the
placeholder guard line. -/
theorem render_with_unset_hash : ∀ g : GitignoreFile, g.generated_content_hash = none →
    g.render = "### START-GENERATED-CONTENT [HASH: None]" ++ "\n" ++ g.generated_content ++
      "\n" ++ GENERATED_GUARD_END ++ "\n" ++
      pyJoin "\n" (g.entries.map GitignoreEntry.str) ++ "\n" ∧
    (pyLines g.render).head? = some "### START-GENERATED-CONTENT [HASH: None]" := by
  intro g hnone
  have hlit : GENERATED_GUARD_START_LINE (hashToken (none : Option String)) =
      "### START-GENERATED-CONTENT [HASH: None]" := by decide
  have hh : '\n' ∉ (hashToken g.generated_content_hash).data := by
    rw [hnone]
    decide
  constructor
  · rw [render_decomp g, hnone, hlit]
  · rw [pyLines_render g hh, hnone, hlit]
    rfl

/-- Witness for C9 at a concrete document with an unset hash. -/
theorem render_with_unset_hash_witness :
    (GitignoreFile.mk [⟨GitignoreEntryType.path, "w"⟩] "gen" none none).render =
      "### START-GENERATED-CONTENT [HASH: None]" ++ "\n" ++ "gen" ++ "\n" ++
        GENERATED_GUARD_END ++ "\n" ++
        pyJoin "\n" (List.map GitignoreEntry.str [⟨GitignoreEntryType.path, "w"⟩]) ++ "\n" :=
  (render_with_unset_hash ⟨[⟨GitignoreEntryType.path, "w"⟩], "gen", none, none⟩ rfl).1

/-! ### Round-trip lemmas (claim C1) -/

theorem startGuardMatch_guard_line (h : String) :
    startGuardMatch (GENERATED_GUARD_START_LINE h) = some h := by
  unfold startGuardMatch matchBracketLine
  have hdata := data_guard_start_line h
  have hbr : ("]" : String).data = [']'] := rfl
  rw [hdata, hbr]
  have hpre : ("### START-GENERATED-CONTENT [HASH: " : String).data.isPrefixOf
      ("### START-GENERATED-CONTENT [HASH: ".data ++ h.data ++ [']']) = true := by
    rw [List.isPrefixOf_iff_prefix, List.append_assoc]
    exact List.prefix_append _ _
  have hlen : ("### START-GENERATED-CONTENT [HASH: " : String).data.length <
      ("### START-GENERATED-CONTENT [HASH: ".data ++ h.data ++ [']']).length := by
    simp [List.length_append]
  have hlast : ("### START-GENERATED-CONTENT [HASH: ".data ++ h.data ++ [']']).getLast? =
      some ']' := List.getLast?_concat _
  rw [if_pos ⟨hpre, hlen, hlast⟩]
  rw [List.append_assoc, List.drop_left, List.dropLast_concat, mk_data]

theorem data_comment_str (v : String) : ("# " ++ v).data = '#' :: ' ' :: v.data := by
  have : ("# " : String).data = ['#', ' '] := rfl
  rw [String.data_append, this]
  rfl

theorem classifyUserLine_entry (e : GitignoreEntry) (hwf : e.wf = true) :
    classifyUserLine e.str = e := by
  obtain ⟨ty, v⟩ := e
  cases ty with
  | comment =>
    simp only [GitignoreEntry.wf, Bool.and_eq_true] at hwf
    obtain ⟨⟨hnl, hls⟩, hsg⟩ := hwf
    have hstr : GitignoreEntry.str ⟨GitignoreEntryType.comment, v⟩ = "# " ++ v := by
      simp [GitignoreEntry.str, GitignoreEntry.is_comment]
    rw [hstr, classifyUserLine]
    have hsw : startsWithHash ("# " ++ v) = true := by
      rw [startsWithHash, data_comment_str]
      rfl
    rw [if_pos hsw]
    have hdrop : ("# " ++ v).data.drop 1 = ' ' :: v.data := by
      rw [data_comment_str]
      rfl
    rw [hdrop]
    have hlstrip : pyLStrip (String.mk (' ' :: v.data)) = pyLStrip v := by
      simp [pyLStrip, List.dropWhile]
      rfl
    rw [hlstrip, beq_iff_eq.mp hls]
  | blank =>
    simp only [GitignoreEntry.wf, beq_iff_eq] at hwf
    subst hwf
    rfl
  | path =>
    simp only [GitignoreEntry.wf, Bool.and_eq_true] at hwf
    obtain ⟨⟨⟨hnl, hhd⟩, hst⟩, hsg⟩ := hwf
    have hstr : GitignoreEntry.str ⟨GitignoreEntryType.path, v⟩ = v := by
      simp [GitignoreEntry.str, GitignoreEntry.is_comment]
    rw [hstr, classifyUserLine]
    have hsw : startsWithHash v = false := by
      rw [startsWithHash]
      simpa using hhd
    rw [if_neg (by simp [hsw])]
    rw [if_neg (by simpa using hst)]

theorem entry_str_no_nl (e : GitignoreEntry) (hwf : e.wf = true) : '\n' ∉ e.str.data := by
  obtain ⟨ty, v⟩ := e
  cases ty with
  | comment =>
    simp only [GitignoreEntry.wf, Bool.and_eq_true] at hwf
    obtain ⟨⟨hnl, _⟩, _⟩ := hwf
    have hstr : GitignoreEntry.str ⟨GitignoreEntryType.comment, v⟩ = "# " ++ v := by
      simp [GitignoreEntry.str, GitignoreEntry.is_comment]
    rw [hstr, data_comment_str]
    intro hmem
    simp only [List.mem_cons] at hmem
    rcases hmem with h1 | h1 | h1
    · exact absurd h1 (by decide)
    · exact absurd h1 (by decide)
    · exact (by simpa using hnl : ¬ '\n' ∈ v.data) h1
  | blank =>
    simp only [GitignoreEntry.wf, beq_iff_eq] at hwf
    subst hwf
    simp [GitignoreEntry.str, GitignoreEntry.is_comment]
  | path =>
    simp only [GitignoreEntry.wf, Bool.and_eq_true] at hwf
    obtain ⟨⟨⟨hnl, _⟩, _⟩, _⟩ := hwf
    have hstr : GitignoreEntry.str ⟨GitignoreEntryType.path, v⟩ = v := by
      simp [GitignoreEntry.str, GitignoreEntry.is_comment]
    rw [hstr]
    simpa using hnl

theorem entry_str_guard_none (e : GitignoreEntry) (hwf : e.wf = true) :
    startGuardMatch e.str = none := by
  obtain ⟨ty, v⟩ := e
  cases ty with
  | comment =>
    simp only [GitignoreEntry.wf, Bool.and_eq_true] at hwf
    obtain ⟨_, hsg⟩ := hwf
    have hstr : GitignoreEntry.str ⟨GitignoreEntryType.comment, v⟩ = "# " ++ v := by
      simp [GitignoreEntry.str, GitignoreEntry.is_comment]
    rw [hstr]
    exact Option.isNone_iff_eq_none.mp hsg
  | blank =>
    simp only [GitignoreEntry.wf, beq_iff_eq] at hwf
    subst hwf
    have hstr : GitignoreEntry.str ⟨GitignoreEntryType.blank, ""⟩ = "" := by
      simp [GitignoreEntry.str, GitignoreEntry.is_comment]
    rw [hstr]
    decide
  | path =>
    simp only [GitignoreEntry.wf, Bool.and_eq_true] at hwf
    obtain ⟨_, hsg⟩ := hwf
    have hstr : GitignoreEntry.str ⟨GitignoreEntryType.path, v⟩ = v := by
      simp [GitignoreEntry.str, GitignoreEntry.is_comment]
    rw [hstr]
    exact Option.isNone_iff_eq_none.mp hsg

/-- C1: for every well-formed document without guard corruption whose
hashes were refreshed consistently (formalized by `GitignoreFile.wf`),
parsing the rendered text yields the document back exactly: same entries,
same generated content and both digests intact. -/
theorem parse_render_roundtrip : ∀ g : GitignoreFile, g.wf = true →
    GitignoreFile.parse g.render = Except.ok g := by
  intro g hwf
  simp only [GitignoreFile.wf, Bool.and_eq_true] at hwf
  obtain ⟨⟨⟨⟨hne, hall⟩, hgch⟩, hgcend⟩, hph⟩ := hwf
  rw [List.all_eq_true] at hall
  rw [List.all_eq_true] at hgcend
  obtain ⟨h, hgcheq, hhnl⟩ : ∃ h, g.generated_content_hash = some h ∧ '\n' ∉ h.data := by
    cases hg : g.generated_content_hash with
    | none =>
      rw [hg] at hgch
      cases hgch
    | some h =>
      rw [hg] at hgch
      exact ⟨h, rfl, by simpa using hgch⟩
  have htok : hashToken g.generated_content_hash = h := by
    rw [hgcheq]
    rfl
  have hentries_ne : g.entries ≠ [] := by
    simpa [List.isEmpty_iff] using hne
  have hmap_ne : g.entries.map GitignoreEntry.str ≠ [] := by
    simpa using hentries_ne
  have hmap_nl : ∀ p ∈ g.entries.map GitignoreEntry.str, '\n' ∉ p.data := by
    intro p hp
    rcases List.mem_map.mp hp with ⟨e, he, rfl⟩
    exact entry_str_no_nl e (hall e he)
  have hentry_lines : strLines (pyJoin "\n" (g.entries.map GitignoreEntry.str)) =
      g.entries.map GitignoreEntry.str := strLines_pyJoin _ hmap_ne hmap_nl
  have hgc_ne_end : ∀ l ∈ strLines g.generated_content, l ≠ GENERATED_GUARD_END := by
    intro l hl
    have := hgcend l hl
    simpa using this
  rw [GitignoreFile.parse, pyLines_render g (by rw [htok]; exact hhnl), hentry_lines]
  rw [parseLines]
  rw [List.foldl_cons]
  rw [parseStep_user_guard parseInit _ h rfl (by rw [htok]; exact startGuardMatch_guard_line h)]
  rw [List.foldl_append, List.foldl_append]
  rw [foldl_parseStep_gen (strLines g.generated_content) _ (by rfl) hgc_ne_end]
  rw [List.foldl_cons, List.foldl_nil]
  rw [parseStep_gen_end _ (by rfl)]
  rw [foldl_parseStep_user (g.entries.map GitignoreEntry.str) _ (by rfl) (by
    intro l hl
    rcases List.mem_map.mp hl with ⟨e, he, rfl⟩
    exact entry_str_guard_none e (hall e he))]
  have hclass : (g.entries.map GitignoreEntry.str).map classifyUserLine = g.entries := by
    rw [List.map_map]
    have : ∀ e ∈ g.entries, (classifyUserLine ∘ GitignoreEntry.str) e = id e := by
      intro e he
      exact classifyUserLine_entry e (hall e he)
    rw [List.map_congr_left this, List.map_id]
  simp only [parseInit, List.nil_append, List.append_nil]
  rw [hclass, join_strLines]
  have hphain : scanParams none (strLines g.generated_content) = g.parameters_hash :=
    beq_iff_eq.mp hph
  rw [hphain, ← hgcheq]
  rfl

/-- Witness for C1: a concrete well-formed document round-trips through
`render` and `parse`. -/
theorem parse_render_roundtrip_witness :
    GitignoreFile.wf ⟨[⟨GitignoreEntryType.path, "foo"⟩, ⟨GitignoreEntryType.comment, "hi"⟩,
        ⟨GitignoreEntryType.blank, ""⟩], "gen\nstuff", some "abc123", none⟩ = true ∧
    GitignoreFile.parse (GitignoreFile.render ⟨[⟨GitignoreEntryType.path, "foo"⟩,
        ⟨GitignoreEntryType.comment, "hi"⟩, ⟨GitignoreEntryType.blank, ""⟩],
        "gen\nstuff", some "abc123", none⟩) =
      Except.ok ⟨[⟨GitignoreEntryType.path, "foo"⟩, ⟨GitignoreEntryType.comment, "hi"⟩,
        ⟨GitignoreEntryType.blank, ""⟩], "gen\nstuff", some "abc123", none⟩ :=
  ⟨by decide, parse_render_roundtrip ⟨[⟨GitignoreEntryType.path, "foo"⟩,
    ⟨GitignoreEntryType.comment, "hi"⟩, ⟨GitignoreEntryType.blank, ""⟩],
    "gen\nstuff", some "abc123", none⟩ (by decide)⟩

/-! ### Sorter lemmas (claim C5) -/

theorem scan_comments (comments : List String) : ∀ (cs : List String)
    (l : List GitignoreEntry),
    scanGroupsAux cs []
        (comments.map (fun c => (⟨GitignoreEntryType.comment, c⟩ : GitignoreEntry)) ++ l) =
      scanGroupsAux (cs ++ comments) [] l := by
  induction comments with
  | nil =>
    intro cs l
    simp
  | cons c cc ih =>
    intro cs l
    simp only [List.map_cons, List.cons_append, scanGroupsAux, List.isEmpty_nil, if_pos,
      List.append_eq]
    rw [ih (cs ++ [c]) l, List.append_assoc]
    rfl

theorem scan_paths (paths : List String) : ∀ (cs ps : List String)
    (l : List GitignoreEntry),
    scanGroupsAux cs ps
        (paths.map (fun p => (⟨GitignoreEntryType.path, p⟩ : GitignoreEntry)) ++ l) =
      scanGroupsAux cs (ps ++ paths) l := by
  induction paths with
  | nil =>
    intro cs ps l
    simp
  | cons p pp ih =>
    intro cs ps l
    simp only [List.map_cons, List.cons_append, scanGroupsAux, List.append_eq]
    rw [ih cs (ps ++ [p]) l, List.append_assoc]
    rfl

theorem scan_blank (cs ps : List String) (l : List GitignoreEntry) :
    scanGroupsAux cs ps (⟨GitignoreEntryType.blank, ""⟩ :: l) = scanGroupsAux cs ps l := rfl

theorem scan_append_blank (l : List GitignoreEntry) : ∀ (cs ps : List String),
    scanGroupsAux cs ps (l ++ [⟨GitignoreEntryType.blank, ""⟩]) = scanGroupsAux cs ps l := by
  induction l with
  | nil =>
    intro cs ps
    rfl
  | cons e t ih =>
    intro cs ps
    cases he : e.type <;> simp only [List.cons_append, scanGroupsAux, he, List.append_eq]
    · split
      · rw [ih]
      · rw [ih]
    · rw [ih]
    · rw [ih]

theorem scanAux_head (l : List GitignoreEntry) : ∀ (cs ps : List String),
    ∃ cc pp rest, scanGroupsAux cs ps l = ⟨cs ++ cc, ps ++ pp⟩ :: rest := by
  induction l with
  | nil =>
    intro cs ps
    exact ⟨[], [], [], by simp [scanGroupsAux]⟩
  | cons e t ih =>
    intro cs ps
    cases he : e.type
    case comment =>
      simp only [scanGroupsAux, he]
      by_cases hps : ps.isEmpty
      · rw [if_pos hps]
        rcases ih (cs ++ [e.value]) ps with ⟨cc, pp, rest, hr⟩
        exact ⟨[e.value] ++ cc, pp, rest, by rw [hr, List.append_assoc]⟩
      · rw [if_neg hps]
        exact ⟨[], [], scanGroupsAux [e.value] [] t, by simp⟩
    case blank =>
      simp only [scanGroupsAux, he]
      exact ih cs ps
    case path =>
      simp only [scanGroupsAux, he]
      rcases ih cs (ps ++ [e.value]) with ⟨cc, pp, rest, hr⟩
      exact ⟨cc, [e.value] ++ pp, rest, by rw [hr, List.append_assoc]⟩

theorem scanAux_ne_nil (l : List GitignoreEntry) (cs ps : List String) :
    scanGroupsAux cs ps l ≠ [] := by
  rcases scanAux_head l cs ps with ⟨cc, pp, rest, hr⟩
  rw [hr]
  simp

theorem scanGroups_ne_nil (l : List GitignoreEntry) : scanGroups l ≠ [] :=
  scanAux_ne_nil l [] []

theorem scanAux_dropLast_paths (l : List GitignoreEntry) : ∀ (cs ps : List String),
    ∀ gr ∈ (scanGroupsAux cs ps l).dropLast, gr.paths ≠ [] := by
  induction l with
  | nil =>
    intro cs ps gr hgr
    simp [scanGroupsAux] at hgr
  | cons e t ih =>
    intro cs ps gr hgr
    cases he : e.type
    case comment =>
      simp only [scanGroupsAux, he] at hgr
      by_cases hps : ps.isEmpty
      · rw [if_pos hps] at hgr
        exact ih _ _ gr hgr
      · rw [if_neg hps] at hgr
        rw [List.dropLast_cons_of_ne_nil (scanAux_ne_nil t [e.value] [])] at hgr
        rcases List.mem_cons.mp hgr with rfl | hgr
        · simpa [List.isEmpty_iff] using hps
        · exact ih _ _ gr hgr
    case blank =>
      simp only [scanGroupsAux, he] at hgr
      exact ih _ _ gr hgr
    case path =>
      simp only [scanGroupsAux, he] at hgr
      exact ih _ _ gr hgr

theorem scanAux_tail_comments (l : List GitignoreEntry) : ∀ (cs ps : List String),
    ∀ gr ∈ (scanGroupsAux cs ps l).tail, gr.comments ≠ [] := by
  induction l with
  | nil =>
    intro cs ps gr hgr
    simp [scanGroupsAux] at hgr
  | cons e t ih =>
    intro cs ps gr hgr
    cases he : e.type
    case comment =>
      simp only [scanGroupsAux, he] at hgr
      by_cases hps : ps.isEmpty
      · rw [if_pos hps] at hgr
        exact ih _ _ gr hgr
      · rw [if_neg hps] at hgr
        simp only [List.tail_cons] at hgr
        rcases scanAux_head t [e.value] [] with ⟨cc, pp, rest, hr⟩
        rw [hr] at hgr
        rcases List.mem_cons.mp hgr with rfl | hgr
        · simp
        · have := ih [e.value] [] gr (by rw [hr]; simpa using hgr)
          exact this
    case blank =>
      simp only [scanGroupsAux, he] at hgr
      exact ih _ _ gr hgr
    case path =>
      simp only [scanGroupsAux, he] at hgr
      exact ih _ _ gr hgr

theorem map_dropLast {α β : Type} (f : α → β) : ∀ l : List α,
    (l.map f).dropLast = l.dropLast.map f := by
  intro l
  induction l with
  | nil => rfl
  | cons x t ih =>
    cases t with
    | nil => rfl
    | cons y t' =>
      simp only [List.map_cons, List.dropLast_cons₂]
      rw [← List.map_cons f y t', ih]

theorem tail_map {α β : Type} (f : α → β) (l : List α) : (l.map f).tail = l.tail.map f := by
  cases l <;> rfl

theorem flatMap_chunk_concat (G : List SortGroup) (hG : G ≠ []) :
    ∃ x, G.flatMap chunkEntries = x ++ [(⟨GitignoreEntryType.blank, ""⟩ : GitignoreEntry)] := by
  induction G with
  | nil => exact absurd rfl hG
  | cons g G' ih =>
    cases hG' : G' with
    | nil =>
      refine ⟨g.comments.map (fun c => (⟨GitignoreEntryType.comment, c⟩ : GitignoreEntry)) ++
        g.paths.map (fun p => (⟨GitignoreEntryType.path, p⟩ : GitignoreEntry)), ?_⟩
      simp [chunkEntries, List.flatMap_cons, List.flatMap_nil, List.append_assoc]
    | cons g1 G'' =>
      rcases ih (by simp [hG']) with ⟨x, hx⟩
      rw [← hG']
      exact ⟨chunkEntries g ++ x, by rw [List.flatMap_cons, hx, List.append_assoc]⟩


theorem buildGroups_false_decomp (G : List SortGroup) (hG : G ≠ []) :
    buildGroups false G =
      ((⟨GitignoreEntryType.blank, ""⟩ : GitignoreEntry) :: G.flatMap chunkEntries).dropLast := by
  rcases flatMap_chunk_concat G hG with ⟨x, hx⟩
  have hcond : ((((⟨GitignoreEntryType.blank, ""⟩ : GitignoreEntry) ::
      G.flatMap chunkEntries).getLast?.map GitignoreEntry.is_blank).getD false) = true := by
    rw [hx, ← List.cons_append, List.getLast?_concat]
    rfl
  show (if (((⟨GitignoreEntryType.blank, ""⟩ : GitignoreEntry) ::
        G.flatMap chunkEntries).getLast?.map GitignoreEntry.is_blank).getD false
      then ((⟨GitignoreEntryType.blank, ""⟩ : GitignoreEntry) ::
        G.flatMap chunkEntries).dropLast
      else ((⟨GitignoreEntryType.blank, ""⟩ : GitignoreEntry) ::
        G.flatMap chunkEntries)) = _
  rw [hcond]
  simp

theorem buildGroups_true_eq (G : List SortGroup) :
    buildGroups true G =
      buildGroups false
        (G.map (fun gr => (⟨gr.comments, pySort pathKey gr.paths⟩ : SortGroup))) := by
  simp only [buildGroups, List.flatMap_map]
  rfl

theorem scan_chunks (G : List SortGroup) : ∀ (cs ps : List String), ps ≠ [] →
    (∀ gr ∈ G.dropLast, gr.paths ≠ []) → (∀ gr ∈ G, gr.comments ≠ []) →
    scanGroupsAux cs ps (G.flatMap chunkEntries) = ⟨cs, ps⟩ :: G := by
  induction G with
  | nil =>
    intro cs ps _ _ _
    simp [scanGroupsAux]
  | cons g G' ih =>
    intro cs ps hps hpaths hcomm
    obtain ⟨c, cc, hcs⟩ : ∃ c cc, g.comments = c :: cc := by
      rcases hcg : g.comments with _ | ⟨c, cc⟩
      · exact absurd hcg (hcomm g (by simp))
      · exact ⟨c, cc, rfl⟩
    rw [List.flatMap_cons, chunkEntries, hcs]
    simp only [List.map_cons, List.cons_append, List.singleton_append, List.nil_append,
      List.append_assoc, List.append_eq]
    have hpse : ¬ps.isEmpty = true := by simpa [List.isEmpty_iff] using hps
    simp only [scanGroupsAux, if_neg hpse]
    congr 1
    have h1 := scan_comments cc [c]
      (g.paths.map (fun p => (⟨GitignoreEntryType.path, p⟩ : GitignoreEntry)) ++
        (⟨GitignoreEntryType.blank, ""⟩ : GitignoreEntry) :: G'.flatMap chunkEntries)
    rw [h1]
    have h2 := scan_paths g.paths ([c] ++ cc) []
      ((⟨GitignoreEntryType.blank, ""⟩ : GitignoreEntry) :: G'.flatMap chunkEntries)
    rw [h2]
    have h3 : scanGroupsAux ([c] ++ cc) ([] ++ g.paths)
        ((⟨GitignoreEntryType.blank, ""⟩ : GitignoreEntry) :: G'.flatMap chunkEntries) =
        scanGroupsAux (c :: cc) g.paths (G'.flatMap chunkEntries) := rfl
    rw [h3]
    cases hG' : G' with
    | nil =>
      simp only [List.flatMap_nil, scanGroupsAux]
      rw [← hcs]
    | cons g1 G'' =>
      have hgp : g.paths ≠ [] := hpaths g (by rw [hG']; simp)
      rw [← hG', ih (c :: cc) g.paths hgp ?hp ?hc, ← hcs]
      case hp =>
        intro gr hgr
        apply hpaths gr
        rw [List.dropLast_cons_of_ne_nil (by simp [hG'])]
        exact List.mem_cons_of_mem g hgr
      case hc =>
        intro gr hgr
        exact hcomm gr (List.mem_cons_of_mem g hgr)

theorem scan_chunks_top (g0 : SortGroup) (G : List SortGroup)
    (hpaths : ∀ gr ∈ (g0 :: G).dropLast, gr.paths ≠ [])
    (hcomm : ∀ gr ∈ G, gr.comments ≠ []) :
    scanGroupsAux [] [] ((g0 :: G).flatMap chunkEntries) = g0 :: G := by
  rw [List.flatMap_cons, chunkEntries]
  simp only [List.append_assoc, List.append_eq, List.singleton_append, List.cons_append,
    List.nil_append]
  have h1 := scan_comments g0.comments []
    (g0.paths.map (fun p => (⟨GitignoreEntryType.path, p⟩ : GitignoreEntry)) ++
      (⟨GitignoreEntryType.blank, ""⟩ : GitignoreEntry) :: G.flatMap chunkEntries)
  rw [h1]
  have h2 := scan_paths g0.paths ([] ++ g0.comments) []
    ((⟨GitignoreEntryType.blank, ""⟩ : GitignoreEntry) :: G.flatMap chunkEntries)
  rw [h2]
  have h3 : scanGroupsAux ([] ++ g0.comments) ([] ++ g0.paths)
      ((⟨GitignoreEntryType.blank, ""⟩ : GitignoreEntry) :: G.flatMap chunkEntries) =
      scanGroupsAux g0.comments g0.paths (G.flatMap chunkEntries) := by
    simp only [List.nil_append]
    rfl
  rw [h3]
  cases hG : G with
  | nil =>
    simp only [List.flatMap_nil, scanGroupsAux]
  | cons g1 G' =>
    have hg0 : g0.paths ≠ [] := hpaths g0 (by rw [hG]; simp)
    rw [scan_chunks (g1 :: G') g0.comments g0.paths hg0 ?hp ?hc]
    case hp =>
      intro gr hgr
      apply hpaths gr
      rw [hG, List.dropLast_cons_of_ne_nil (by simp)]
      exact List.mem_cons_of_mem g0 hgr
    case hc =>
      intro gr hgr
      exact hcomm gr (by rw [hG]; exact hgr)

theorem scanGroups_buildGroups_false (G : List SortGroup) (hG : G ≠ [])
    (hpaths : ∀ gr ∈ G.dropLast, gr.paths ≠ [])
    (hcomm : ∀ gr ∈ G.tail, gr.comments ≠ []) :
    scanGroups (buildGroups false G) = G := by
  rcases G with _ | ⟨g0, G'⟩
  · exact absurd rfl hG
  rw [buildGroups_false_decomp _ (by simp)]
  rcases flatMap_chunk_concat (g0 :: G') (by simp) with ⟨x, hx⟩
  rw [scanGroups, hx, ← List.cons_append, List.dropLast_concat]
  have hblank := scan_append_blank ((⟨GitignoreEntryType.blank, ""⟩ : GitignoreEntry) :: x) [] []
  rw [← hblank, List.cons_append, ← hx]
  have hskip : scanGroupsAux [] []
      ((⟨GitignoreEntryType.blank, ""⟩ : GitignoreEntry) :: (g0 :: G').flatMap chunkEntries) =
      scanGroupsAux [] [] ((g0 :: G').flatMap chunkEntries) := rfl
  rw [hskip]
  exact scan_chunks_top g0 G' hpaths (by intro gr hgr; exact hcomm gr (by simpa using hgr))

theorem pySort_idem {α : Type} (key : α → String) (l : List α) :
    pySort key (pySort key l) = pySort key l :=
  List.Sorted.insertionSort_eq (List.sorted_insertionSort (keyLe key) l)

theorem pySort_ne_nil {α : Type} (key : α → String) (l : List α) (h : l ≠ []) :
    pySort key l ≠ [] := by
  intro hc
  have hlen := List.length_insertionSort (keyLe key) l
  rw [show pySort key l = List.insertionSort (keyLe key) l from rfl] at hc
  rw [hc] at hlen
  exact h (List.eq_nil_of_length_eq_zero hlen.symm)

/-- C5 amended: with `sort_groups` false (the default), `sort_gitignore`
is idempotent for either value of `sort_paths`; with `sort_groups` true it
is not (see the counterexample). -/
theorem sort_gitignore_idempotent_without_sort_groups :
    ∀ (g : GitignoreFile) (sort_paths : Bool),
    (g.sort_gitignore sort_paths false).sort_gitignore sort_paths false =
      g.sort_gitignore sort_paths false := by
  intro g sp
  have hdef : ∀ d : GitignoreFile, d.sort_gitignore sp false =
      {d with entries := buildGroups sp (scanGroups d.entries)} := by
    intro d
    rfl
  have hGne : scanGroups g.entries ≠ [] := scanGroups_ne_nil g.entries
  have hGpaths : ∀ gr ∈ (scanGroups g.entries).dropLast, gr.paths ≠ [] :=
    scanAux_dropLast_paths g.entries [] []
  have hGcomm : ∀ gr ∈ (scanGroups g.entries).tail, gr.comments ≠ [] :=
    scanAux_tail_comments g.entries [] []
  rw [hdef g, hdef _]
  cases sp with
  | false =>
    have hscan : scanGroups (buildGroups false (scanGroups g.entries)) = scanGroups g.entries :=
      scanGroups_buildGroups_false _ hGne hGpaths hGcomm
    simp only [hscan]
  | true =>
    have hscan : scanGroups (buildGroups true (scanGroups g.entries)) =
        (scanGroups g.entries).map
          (fun gr => (⟨gr.comments, pySort pathKey gr.paths⟩ : SortGroup)) := by
      rw [buildGroups_true_eq]
      apply scanGroups_buildGroups_false
      · simpa using hGne
      · intro gr hgr
        rw [map_dropLast] at hgr
        rcases List.mem_map.mp hgr with ⟨gr', h', rfl⟩
        exact pySort_ne_nil _ _ (hGpaths gr' h')
      · intro gr hgr
        rw [tail_map] at hgr
        rcases List.mem_map.mp hgr with ⟨gr', h', rfl⟩
        exact hGcomm gr' h'
    simp only [hscan]
    have hmm : ((scanGroups g.entries).map
        (fun gr => (⟨gr.comments, pySort pathKey gr.paths⟩ : SortGroup))).map
          (fun gr => (⟨gr.comments, pySort pathKey gr.paths⟩ : SortGroup)) =
        (scanGroups g.entries).map
          (fun gr => (⟨gr.comments, pySort pathKey gr.paths⟩ : SortGroup)) := by
      rw [List.map_map]
      apply List.map_congr_left
      intro gr _
      simp [Function.comp, pySort_idem]
    rw [buildGroups_true_eq, hmm, ← buildGroups_true_eq]
